import Mathlib

/-!
Verification development for the oauth3-openclaw execution proxy.

The definitions below are a shallow embedding of the TypeScript sources:
  * `src/proxy/src/executor.ts` — metadata parser and sandbox executor,
  * `src/unnamed/part_007` (database.ts) — request rows, trust records,
  * `src/proxy/src/server.ts` — ingress endpoint and approval callback,
  * `src/proxy/src/telegram.ts` — approval-prompt keyboard and button handler.

Timestamps are milliseconds since the epoch (JavaScript `Date.now()`),
modelled as `Nat`.  JavaScript truthiness of strings/numbers is modelled
explicitly (`""` and `0` are falsy).  The SHA-256 fingerprint function is an
external crypto primitive and is threaded through the model as an abstract
parameter `hashFn`.
-/

namespace OAuth3

/-! ### Metadata parser (`executor.ts`, `parseMetadata`)

The source splits the code on `'\n'` and matches every line against the
regular expression `@(\w+)\s+(.+)`, folding the recognized `(key, value)`
pairs into a metadata record.  We implement the exact matching semantics
of that pattern (ASCII word characters, greedy runs, one step of
backtracking when the line ends in whitespace) on `List Char`.
-/

/-- `code.split('\n')` on the character list: splitting on every newline,
with `[]` producing the single empty line (as in JavaScript). -/
def splitLines : List Char → List (List Char)
  | [] => [[]]
  | c :: rest =>
    if c = '\n' then [] :: splitLines rest
    else
      match splitLines rest with
      | l :: ls => (c :: l) :: ls
      | [] => [[c]]

/-- JavaScript `String.prototype.trim` whitespace (the characters relevant
to source text). -/
def isTrimWs (c : Char) : Bool :=
  c = ' ' || c = '\t' || c = '\n' || c = '\r' || c = '\x0b' || c = '\x0c'

/-- `value.trim()` on the character list. -/
def trimChars (cs : List Char) : List Char :=
  ((cs.dropWhile isTrimWs).reverse.dropWhile isTrimWs).reverse

/-- JavaScript `\w`: ASCII letters, digits, underscore. -/
def isWordChar (c : Char) : Bool :=
  c.isAlpha || c.isDigit || c = '_'

/-- JavaScript `\s` restricted to characters that can occur inside a line
already split on newlines. -/
def isSpaceChar (c : Char) : Bool :=
  c = ' ' || c = '\t' || c = '\r' || c = '\x0b' || c = '\x0c'

/-- Try to match `@(\w+)\s+(.+)` anchored at the head of the character
list, returning the captured key and value.  The `.+` group is greedy up
to the end of the line; when everything after the key is whitespace the
engine backtracks `\s+` by one character so that `.+` captures a single
whitespace character. -/
def matchKeyVal : List Char → Option (List Char × List Char)
  | '@' :: rest =>
    let key := rest.takeWhile isWordChar
    let after := rest.dropWhile isWordChar
    if key.isEmpty then none
    else
      let ws := after.takeWhile isSpaceChar
      let val := after.dropWhile isSpaceChar
      if ws.isEmpty then none
      else if !val.isEmpty then some (key, val)
      else if 2 ≤ ws.length then some (key, ws.drop (ws.length - 1))
      else none
  | _ => none

/-- `line.match(/@(\w+)\s+(.+)/)`: the regex engine tries each start
position from the left and returns the first match. -/
def findMatch : List Char → Option (List Char × List Char)
  | [] => none
  | c :: rest =>
    match matchKeyVal (c :: rest) with
    | some r => some r
    | none => findMatch rest

/-- JavaScript `parseInt(s)` (radix 10) on an already-trimmed character
list: an optional sign followed by leading digits; `none` models `NaN`. -/
def jsParseInt (cs : List Char) : Option Int :=
  let signAndRest : Bool × List Char :=
    match cs with
    | '-' :: r => (true, r)
    | '+' :: r => (false, r)
    | r => (false, r)
  let digits := signAndRest.2.takeWhile Char.isDigit
  if digits.isEmpty then none
  else
    let n : Nat := digits.foldl (fun a c => a * 10 + (c.toNat - 48)) 0
    some (if signAndRest.1 then -(n : Int) else (n : Int))

/-- `SkillMetadata` from `executor.ts`.  `skill`/`description` start out
absent (`undefined`); `timeout` is initialized to `30` and `none` models
`NaN` (the result of `parseInt` on a non-numeric value). -/
structure SkillMetadata where
  skill : Option String := none
  description : Option String := none
  secrets : List String := []
  network : List String := []
  timeout : Option Int := some 30
  deriving Repr, DecidableEq

/-- One iteration of the `for (const line of lines)` loop of
`parseMetadata`. -/
def applyLine (m : SkillMetadata) (line : List Char) : SkillMetadata :=
  match findMatch line with
  | none => m
  | some kv =>
    let key := kv.1
    let value := String.mk (trimChars kv.2)
    if key = "skill".toList then { m with skill := some value }
    else if key = "description".toList then { m with description := some value }
    else if key = "secrets".toList then { m with secrets := m.secrets ++ [value] }
    else if key = "network".toList then { m with network := m.network ++ [value] }
    else if key = "timeout".toList then { m with timeout := jsParseInt (trimChars kv.2) }
    else m

/-- The tail of `parseMetadata`: `if (!metadata.skill) return null;
return metadata` — the `skill` field is falsy when absent or empty. -/
def finishMetadata (m : SkillMetadata) : Option SkillMetadata :=
  match m.skill with
  | none => none
  | some s => if s = "" then none else some m

/-- `parseMetadata` from `executor.ts`: split the code on newlines, fold
the recognized `@key value` lines, and return `null` when the resulting
`skill` field is falsy (absent or the empty string). -/
def parseMetadata (code : String) : Option SkillMetadata :=
  finishMetadata ((splitLines code.toList).foldl applyLine {})

example : parseMetadata "" = none := by decide
example :
    parseMetadata "/**\n * @skill hello\n * @timeout 5\n */" =
      some { skill := some "hello", timeout := some 5 } := by decide
example :
    (parseMetadata "// @skill t\n// @secrets A\n// @secrets B").map SkillMetadata.secrets =
      some ["A", "B"] := by decide
example : parseMetadata "const x = 1;\n@skill evil" =
    some { skill := some "evil" } := by decide

/-! ### Request rows and trust records (`part_007`, database.ts)

`updateRequestStatus` builds its SQL `SET` clause by pushing column
names onto `updates` while inserting the bound values into `params` with
`params.splice(1, 0, v)`; the values are then bound to the columns
positionally.  We reproduce that construction exactly, including the
positional binding. -/

/-- The JSON payload stored in the `result` column by
`updateRequestResult` (`server.ts` lines 200–203). -/
structure ExecResultRow where
  success : Bool
  stdout : String
  stderr : String
  exitCode : Nat
  duration : Nat
  deriving Repr, DecidableEq

/-- A row of `execution_requests`.  `secrets` and `args` are stored as
JSON strings in SQLite; serialization is the identity in this model, so
they are kept structured. -/
structure ExecutionRecord where
  id : String
  skill_id : String
  skill_url : String
  code_hash : String
  secrets : List String
  args : List (String × String)
  status : String
  created_at : Nat
  approved_at : Option Nat := none
  executed_at : Option Nat := none
  result : Option ExecResultRow := none
  error : Option String := none
  telegram_message_id : Option Nat := none
  deriving Repr, DecidableEq

/-- A value bound to a SQL parameter slot. -/
inductive SqlValue
  | s (v : String)
  | n (v : Nat)
  deriving Repr, DecidableEq

/-- `params.splice(1, 0, x)`: insert `x` at index 1. -/
def splice1 (x : α) : List α → List α
  | [] => [x]
  | a :: r => a :: x :: r

def sqlNat : SqlValue → Nat
  | .n k => k
  | .s _ => 0

def sqlStr : SqlValue → String
  | .s x => x
  | .n _ => ""

/-- Apply one `column = ?` assignment of the generated `UPDATE`
statement to the row.  (The `sqlNat`/`sqlStr` coercion defaults are
never exercised by the calls the source makes: the first slot is always
the status string and the remaining columns are numeric.) -/
def applyAssignment (row : ExecutionRecord) (a : String × SqlValue) : ExecutionRecord :=
  if a.1 = "status" then { row with status := sqlStr a.2 }
  else if a.1 = "approved_at" then { row with approved_at := some (sqlNat a.2) }
  else if a.1 = "executed_at" then { row with executed_at := some (sqlNat a.2) }
  else if a.1 = "telegram_message_id" then { row with telegram_message_id := some (sqlNat a.2) }
  else row

/-- `ProxyDatabase.updateRequestStatus` (`part_007` lines 104–124).
`updates` starts as `['status = ?']` and `params` as `[status, id]`
(the trailing `id` binds the `WHERE` clause); each conditional pushes a
column name and splices its value at index 1.  The final statement binds
`params` to the `SET` columns positionally, which we model by zipping
(the `WHERE id` tail is dropped by the zip).  `if (telegramMessageId)`
is JavaScript truthiness: `undefined` and `0` skip the branch. -/
def updateRequestStatus (row : ExecutionRecord) (status : String)
    (telegramMessageId : Option Nat) (now : Nat) : ExecutionRecord :=
  let updates : List String := ["status"]
  let params : List SqlValue := [.s status, .s row.id]
  let step1 : List String × List SqlValue :=
    if status = "approved" then (updates ++ ["approved_at"], splice1 (.n now) params)
    else (updates, params)
  let step2 : List String × List SqlValue :=
    if status = "executing" then (step1.1 ++ ["executed_at"], splice1 (.n now) step1.2)
    else step1
  let step3 : List String × List SqlValue :=
    match telegramMessageId with
    | some m => if m = 0 then step2 else (step2.1 ++ ["telegram_message_id"], splice1 (.n m) step2.2)
    | none => step2
  (step3.1.zip step3.2).foldl applyAssignment row

/-- JavaScript truthiness of the optional error string: `undefined` and
`""` are falsy. -/
def errIsTruthy (error : Option String) : Bool :=
  match error with
  | some e => e ≠ ""
  | none => false

/-- `ProxyDatabase.updateRequestResult` (`part_007` lines 126–137):
`status` is decided by the truthiness of the `error` string
(`error ? 'failed' : 'completed'`), and the stored error is
`error || null`, so an empty error string is stored as `NULL`. -/
def updateRequestResult (row : ExecutionRecord) (result : Option ExecResultRow)
    (error : Option String) : ExecutionRecord :=
  { row with
    status := if errIsTruthy error then "failed" else "completed"
    result := result
    error := if errIsTruthy error then error else none }

/-- A row of `skill_approvals`. -/
structure ApprovalRecord where
  skill_url : String
  code_hash : String
  approval_level : String
  approved_at : Nat
  expires_at : Option Nat
  deriving Repr, DecidableEq

abbrev TrustStore := List ApprovalRecord

/-- `SELECT * FROM skill_approvals WHERE skill_url = ? AND code_hash = ?`. -/
def lookupApprovalRow (st : TrustStore) (url hash : String) : Option ApprovalRecord :=
  st.find? (fun r => r.skill_url = url && r.code_hash = hash)

/-- `INSERT OR REPLACE` keyed on the primary key `(skill_url, code_hash)`. -/
def upsertApproval (st : TrustStore) (r : ApprovalRecord) : TrustStore :=
  r :: st.filter (fun q => !(q.skill_url = r.skill_url && q.code_hash = r.code_hash))

/-- The approval-scope enum.  `trust_code` is the alias the Telegram
keyboard uses for "grant forever while approving once". -/
inductive ApprovalLevel
  | once
  | h24
  | forever
  | trust_code
  deriving Repr, DecidableEq

def levelString : ApprovalLevel → String
  | .once => "once"
  | .h24 => "24h"
  | .forever => "forever"
  | .trust_code => "trust_code"

/-- `ProxyDatabase.addApproval` (`part_007` lines 141–154): upserts a
record; `expiresAt` is `now + 24*60*60*1000` for `'24h'` and `NULL`
otherwise — including for `'once'`, which is inserted like any other
level. -/
def addApproval (st : TrustStore) (url hash : String) (level : ApprovalLevel)
    (now : Nat) : TrustStore :=
  let expiresAt : Option Nat := if level = .h24 then some (now + 24 * 60 * 60 * 1000) else none
  upsertApproval st
    { skill_url := url, code_hash := hash, approval_level := levelString level,
      approved_at := now, expires_at := expiresAt }

/-- `ProxyDatabase.deleteApproval` (`part_007` lines 171–175). -/
def deleteApproval (st : TrustStore) (url hash : String) : TrustStore :=
  st.filter (fun q => !(q.skill_url = url && q.code_hash = hash))

/-- `ProxyDatabase.getApproval` (`part_007` lines 156–169): returns the
record, lazily deleting it when expired.  The expiry test is
`approval.expires_at && approval.expires_at < Date.now()` — JavaScript
truthiness makes `0` (and `NULL`) skip the test.  Returns the looked-up
record together with the possibly mutated store. -/
def getApproval (st : TrustStore) (url hash : String) (now : Nat) :
    Option ApprovalRecord × TrustStore :=
  match lookupApprovalRow st url hash with
  | none => (none, st)
  | some a =>
    let expired : Bool :=
      match a.expires_at with
      | some e => e ≠ 0 && decide (e < now)
      | none => false
    if expired then (none, deleteApproval st url hash) else (some a, st)

/-! ### Sandbox executor (`executor.ts`)

The Node runtime (`execFileAsync` with a `timeout` option) is an external
collaborator; its contract is modelled by `execFileOutcome`: the promise
resolves exactly when the child exits with code 0 within the wall-clock
timeout; on a longer run the runtime terminates the child and rejects with
a timeout error (`error.code` unset); on a non-zero exit it rejects with
`error.code` equal to the exit code.  The rejection error object carries
the captured streams (`error.stdout`, `error.stderr`) and a non-empty
human-readable `error.message` (for example `Command failed: …`), which we
thread through as the `errMessage` parameter. -/

/-- What the sandbox child process would do if left alone: the wall-clock
time it needs and its exit code and output streams. -/
structure ChildBehavior where
  runMs : Nat
  exitCode : Nat
  stdout : String
  stderr : String
  deriving Repr, DecidableEq

/-- Outcome of `execFileAsync(cmd, args, { timeout: timeoutMs, … })`. -/
inductive ExecOutcome
  | resolved (stdout stderr : String)
  | rejectedExit (code : Nat) (stdout stderr : String)
  | rejectedTimeout (stdout stderr : String)
  deriving Repr, DecidableEq

/-- The Node `execFile` timeout contract (see section comment). -/
def execFileOutcome (timeoutMs : Nat) (b : ChildBehavior) : ExecOutcome :=
  if timeoutMs < b.runMs then .rejectedTimeout b.stdout b.stderr
  else if b.exitCode = 0 then .resolved b.stdout b.stderr
  else .rejectedExit b.exitCode b.stdout b.stderr

/-- `ExecutionRequest` from `executor.ts`.  `timeout` is in seconds;
`args` values have already passed through `String(value)`. -/
structure ExecRequestInput where
  code : String
  secrets : List (String × String)
  args : List (String × String)
  timeout : Option Nat := none
  allowedNetworks : List String := []

/-- `ExecutionResult` from `executor.ts` (the `codeHash` field is the
abstract `hashFn` applied to the code). -/
structure ExecutionResult where
  success : Bool
  stdout : String
  stderr : String
  exitCode : Nat
  duration : Nat
  codeHash : String
  deriving Repr, DecidableEq

/-- `const timeout = request.timeout || 30`: JavaScript `||` treats both
`undefined` and `0` as falsy. -/
def effectiveTimeout (t : Option Nat) : Nat :=
  match t with
  | some n => if n = 0 then 30 else n
  | none => 30

/-- `s.trim()` on a string. -/
def jsTrim (s : String) : String :=
  String.mk (trimChars s.toList)

/-- An environment is a finite partial map from variable names to
values; JavaScript object assignment overwrites. -/
abbrev Env := String → Option String

def emptyEnv : Env := fun _ => none

def envSet (e : Env) (k v : String) : Env :=
  fun q => if q = k then some v else e q

/-- Assign every pair of the list onto the environment object (the
`for (const [key, value] of Object.entries(…))` loops). -/
def envOfList (l : List (String × String)) (e : Env) : Env :=
  l.foldl (fun e kv => envSet e kv.1 kv.2) e

/-- `if (process.env.X) env.X = process.env.X`: copy one variable from
the parent environment when its value is truthy (present, non-empty). -/
def copyParentVar (e : Env) (parentEnv : Env) (name : String) : Env :=
  match parentEnv name with
  | some v => if v = "" then e else envSet e name v
  | none => e

/-- `buildSkillEnv` (`executor.ts` lines 278–288): starts from the empty
object, adds the secrets, then the args, then copies `HOME` and `PATH`
from the parent process environment when they are truthy.  Nothing else
of `process.env` is read. -/
def buildSkillEnv (secrets args : List (String × String)) (parentEnv : Env) : Env :=
  copyParentVar
    (copyParentVar (envOfList args (envOfList secrets emptyEnv)) parentEnv "HOME")
    parentEnv "PATH"

/-- The environment object handed to `execFileAsync('deno', …, { env })`
in `executeSkillDirect` (`executor.ts` line 304/309). -/
def directChildEnv (request : ExecRequestInput) (parentEnv : Env) : Env :=
  buildSkillEnv request.secrets request.args parentEnv

/-- The `-e key=value` flags `executeSkillDocker` passes to the container
(`executor.ts` lines 354–364): exactly the secrets followed by the args;
no variable of the parent process environment is forwarded. -/
def dockerEnvFlags (request : ExecRequestInput) : List (String × String) :=
  request.secrets ++ request.args

/-- Result construction shared verbatim by `executeSkillDirect`
(lines 293–331) and `executeSkillDocker` (lines 337–388): the resolved
branch trims the streams and reports success; the catch branch reports
`error.stdout || ''`, `error.stderr || error.message` and
`error.code || 1`. -/
def skillResult (hashFn : String → String) (request : ExecRequestInput)
    (b : ChildBehavior) (errMessage : String) : ExecutionResult :=
  match execFileOutcome (effectiveTimeout request.timeout * 1000) b with
  | .resolved out err =>
    { success := true, stdout := jsTrim out, stderr := jsTrim err, exitCode := 0,
      duration := b.runMs, codeHash := hashFn request.code }
  | .rejectedExit c out err =>
    { success := false, stdout := out,
      stderr := if err = "" then errMessage else err,
      exitCode := if c = 0 then 1 else c,
      duration := b.runMs, codeHash := hashFn request.code }
  | .rejectedTimeout out err =>
    { success := false, stdout := out,
      stderr := if err = "" then errMessage else err,
      exitCode := 1,
      duration := effectiveTimeout request.timeout * 1000, codeHash := hashFn request.code }

/-- `executeSkillDirect` (`executor.ts` lines 293–331): launches the
child with `directChildEnv`; the returned result is `skillResult`. -/
def executeSkillDirect (hashFn : String → String) (request : ExecRequestInput)
    (b : ChildBehavior) (errMessage : String) : ExecutionResult :=
  skillResult hashFn request b errMessage

/-- `executeSkillDocker` (`executor.ts` lines 337–388): launches the
container with `dockerEnvFlags`; the returned result is `skillResult`. -/
def executeSkillDocker (hashFn : String → String) (request : ExecRequestInput)
    (b : ChildBehavior) (errMessage : String) : ExecutionResult :=
  skillResult hashFn request b errMessage

/-- `executeSkill` (`executor.ts` lines 246–249): dispatches on
`EXECUTOR_MODE`. -/
def executeSkill (mode : String) (hashFn : String → String)
    (request : ExecRequestInput) (b : ChildBehavior) (errMessage : String) :
    ExecutionResult :=
  if mode = "direct" then executeSkillDirect hashFn request b errMessage
  else executeSkillDocker hashFn request b errMessage

/-! ### Orchestration (`server.ts` and `telegram.ts`)

A sequential model of the coordinator with the Telegram bot configured.
External effects are oracles: `fetch(skill_url)` results are passed in as
`Option String` (`none` for a failed fetch), fresh request ids and chat
message ids are parameters, and a sandbox launch is recorded in
`launches` as the pair `(request id, code bytes handed to executeSkill)`.
The secret vault is modelled by the list of names whose values are
present and truthy (`secrets[name]`), which is all the orchestration
reads. -/

structure SystemState where
  requests : List ExecutionRecord
  codes : List (String × String)
  approvals : TrustStore
  secretNames : List String
  launches : List (String × String)
  deriving Repr, DecidableEq

/-- `ProxyDatabase.getRequest`: `SELECT * FROM execution_requests WHERE id = ?`. -/
def getRequest (st : SystemState) (id : String) : Option ExecutionRecord :=
  st.requests.find? (fun r => r.id = id)

/-- `UPDATE … WHERE id = ?`: rewrite the row with the matching id. -/
def setRequest (st : SystemState) (id : String)
    (f : ExecutionRecord → ExecutionRecord) : SystemState :=
  { st with requests := st.requests.map (fun r => if r.id = id then f r else r) }

/-- Modelled from the spec: `store_code(id, bytes)` of the Request Store
(spec §4.2, backing table `codes`).  The implementation of
`ProxyDatabase.storeCode` is not under `src/`; only its callers in
`server.ts` are.  Faithful to the spec's words, it persists the bytes
under the request id (upsert). -/
def storeCode (st : SystemState) (id code : String) : SystemState :=
  { st with codes := (id, code) :: st.codes.filter (fun kv => !(kv.1 = id)) }

/-- Modelled from the spec: `load_code(id)` of the Request Store (spec
§4.2) — returns the bytes previously stored under the id, absent if none
were stored.  The implementation of `ProxyDatabase.getCode` is not under
`src/`. -/
def getCode (st : SystemState) (id : String) : Option String :=
  (st.codes.find? (fun kv => kv.1 = id)).map Prod.snd

/-- `ProxyDatabase.createRequest` (`part_007` lines 76–96): inserts a row
in state `pending`. -/
def createRequest (st : SystemState) (id skillId skillUrl codeHash : String)
    (secrets : List String) (args : List (String × String)) (now : Nat) : SystemState :=
  { st with
    requests := st.requests ++
      [{ id := id, skill_id := skillId, skill_url := skillUrl, code_hash := codeHash,
         secrets := secrets, args := args, status := "pending", created_at := now }] }

/-- The inline-keyboard buttons of the approval prompt. -/
inductive PromptButton
  | approveOnce
  | deny
  | trustCode
  deriving Repr, DecidableEq

/-- `sendApprovalRequest` (`telegram.ts` lines 286–381), restricted to its
database-visible behavior: it calls `db.getApproval` twice (line 312 for
the displayed trust status, line 349 for the keyboard, each call lazily
deleting an expired row) and shapes the keyboard on the second result —
`{Run(approve:once), Skip(deny)}` when the code is trusted, otherwise
`{Run Once(approve:once), Deny(deny), Trust Code(approve:trust_code)}`. -/
def sendApprovalKeyboard (st : TrustStore) (url hash : String) (now : Nat) :
    List PromptButton × TrustStore :=
  (if (getApproval (getApproval st url hash now).2 url hash now).1.isSome then
    [.approveOnce, .deny]
   else [.approveOnce, .deny, .trustCode],
   (getApproval (getApproval st url hash now).2 url hash now).2)

/-- Stage of `POST /execute` (`server.ts` lines 140–141): persist the
request row and the fetched code bytes.  `secretsList` is the
caller-supplied secrets field of the body (normalized from a list or the
keys of a mapping) and `args` the invocation arguments. -/
def persistIngress (hashFn : String → String) (st : SystemState)
    (skillId skillUrl code freshId : String) (secretsList : List String)
    (args : List (String × String)) (now : Nat) : SystemState :=
  storeCode (createRequest st freshId skillId skillUrl (hashFn code) secretsList args now)
    freshId code

/-- The `POST /execute` handler (`server.ts` lines 123–153): validate the
input, fetch the code (`fetched = none` models a failed or non-OK
fetch), fingerprint it, reject on missing metadata, persist the request
and the code bytes, send the approval prompt (which shapes its keyboard
from the trust store) and record the chat message id on the row.
Returns the new state and the request id on success. -/
def executeEndpoint (hashFn : String → String) (st : SystemState)
    (skillId skillUrl : String) (fetched : Option String)
    (secretsList : List String) (args : List (String × String))
    (freshId : String) (messageId : Nat) (now : Nat) :
    SystemState × Option String :=
  if skillId = "" || skillUrl = "" then (st, none)
  else
    match fetched with
    | none => (st, none)
    | some code =>
      match parseMetadata code with
      | none => (st, none)
      | some _ =>
        (setRequest
          { persistIngress hashFn st skillId skillUrl code freshId secretsList args now with
            approvals :=
              (sendApprovalKeyboard
                (persistIngress hashFn st skillId skillUrl code freshId secretsList args now).approvals
                skillUrl (hashFn code) now).2 }
          freshId (fun r => updateRequestStatus r "pending" (some messageId) now),
         some freshId)

/-- Stage of `executeInBackground` (`server.ts` line 173): mark the row
`executing`. -/
def markExecuting (st : SystemState) (requestId : String) (now : Nat) : SystemState :=
  setRequest st requestId (fun r => updateRequestStatus r "executing" none now)

/-- The body of `executeInBackground` after the `executing` mark
(`server.ts` lines 174–197): look the row up, compute the secret names
whose values are missing from the vault; if any, mark
`awaiting_secrets` and stop; otherwise invoke the Sandbox Executor,
recorded as an entry in `launches` carrying the exact code bytes passed.
The `metadata!` non-null assertion of the caller is modelled by the
`none` branch: reading `metadata.timeout` of `null` at the
`executeSkill` call throws and the `catch` stores the error via
`updateRequestResult`. -/
def launchOrAwait (st : SystemState) (requestId code : String)
    (metadata : Option SkillMetadata) (now : Nat) : SystemState :=
  match getRequest st requestId with
  | none => st
  | some request =>
    if (request.secrets.filter (fun n => !(st.secretNames.contains n))).isEmpty then
      match metadata with
      | some _ => { st with launches := st.launches ++ [(requestId, code)] }
      | none =>
        setRequest st requestId
          (fun r => updateRequestResult r none (some "TypeError: metadata is null"))
    else
      setRequest st requestId (fun r => updateRequestStatus r "awaiting_secrets" none now)

/-- `executeInBackground` (`server.ts` lines 170–223) up to the sandbox
launch. -/
def executeInBackground (st : SystemState) (requestId code : String)
    (metadata : Option SkillMetadata) (now : Nat) : SystemState :=
  launchOrAwait (markExecuting st requestId now) requestId code metadata now

/-- Stage of `onApproval` (`server.ts` lines 44–46): persist trust for
`'24h'`/`'forever'` only. -/
def persistTrustOnApproval (st : SystemState) (request : ExecutionRecord)
    (level : ApprovalLevel) (now : Nat) : SystemState :=
  if level = .h24 || level = .forever then
    { st with approvals := addApproval st.approvals request.skill_url request.code_hash level now }
  else st

/-- Stage of `onApproval` (`server.ts` line 48): mark the row approved. -/
def markApproved (st : SystemState) (requestId : String) (now : Nat) : SystemState :=
  setRequest st requestId (fun r => updateRequestStatus r "approved" none now)

/-- Stage of `onApproval` (`server.ts` lines 50–55): take the stored
code if available — `if (!code)` falls back to re-fetching `skill_url`
when the stored bytes are absent or the empty string.  `refetched` is
the oracle for the re-fetch (`none` models a failed fetch, which throws
out of the callback with no further state change). -/
def codeForExecution (st : SystemState) (requestId : String)
    (refetched : Option String) : Option String :=
  match getCode st requestId with
  | some c => if c = "" then refetched else some c
  | none => refetched

/-- The `onApproval` closure (`server.ts` lines 40–60). -/
def onApproval (st : SystemState) (requestId : String) (level : ApprovalLevel)
    (refetched : Option String) (now : Nat) : SystemState :=
  match getRequest st requestId with
  | none => st
  | some request =>
    match codeForExecution (markApproved (persistTrustOnApproval st request level now) requestId now)
        requestId refetched with
    | none => markApproved (persistTrustOnApproval st request level now) requestId now
    | some c =>
      executeInBackground (markApproved (persistTrustOnApproval st request level now) requestId now)
        requestId c (parseMetadata c) now

/-- The `onDenial` closure (`server.ts` lines 62–64). -/
def onDenial (st : SystemState) (requestId : String) (now : Nat) : SystemState :=
  setRequest st requestId (fun r => updateRequestStatus r "denied" none now)

/-- Stage of the `approve` callback (`telegram.ts` lines 152–158): for
`trust_code`, persist a `forever` trust record for the request's
`(skill_url, code_hash)`. -/
def trustCodeGrant (st : SystemState) (requestId : String) (level : ApprovalLevel)
    (now : Nat) : SystemState :=
  if level = .trust_code then
    match getRequest st requestId with
    | some request =>
      { st with approvals := addApproval st.approvals request.skill_url request.code_hash .forever now }
    | none => st
  else st

/-- The `approve` branch of the `callback_query` handler (`telegram.ts`
lines 148–189): after the `trust_code` grant, when every required secret
(from the in-memory `requestMetadata` map, passed here as
`requiredSecretsMeta`) is available, hand over to `onApproval`; with a
missing secret the click only registers an in-memory pending approval.
No status check of any kind precedes the handling. -/
def handleApproveClick (st : SystemState) (requestId : String) (level : ApprovalLevel)
    (requiredSecretsMeta : List String) (refetched : Option String) (now : Nat) :
    SystemState :=
  if (requiredSecretsMeta.filter
      (fun n => !((trustCodeGrant st requestId level now).secretNames.contains n))).isEmpty then
    onApproval (trustCodeGrant st requestId level now) requestId level refetched now
  else trustCodeGrant st requestId level now

/-- The tail of `executeInBackground` (`server.ts` lines 200–203) once
the sandbox result is back: store the result atomically with the state
transition; the stored error argument is
`result.success ? undefined : result.stderr`. -/
def finishExecution (st : SystemState) (requestId : String) (r : ExecutionResult) :
    SystemState :=
  setRequest st requestId (fun row =>
    updateRequestResult row
      (some { success := r.success, stdout := r.stdout, stderr := r.stderr,
              exitCode := r.exitCode, duration := r.duration })
      (if r.success then none else some r.stderr))

/-! ### Spec-side definitions used for refinement comparisons -/

/-- Test whether a line belongs to a leading comment block: after
skipping indentation it starts with `//`, `/*`, `*` or `*/`. -/
def isCommentLine (line : List Char) : Bool :=
  match line.dropWhile isTrimWs with
  | '/' :: '/' :: _ => true
  | '/' :: '*' :: _ => true
  | '*' :: _ => true
  | _ => false

/-- Modelled from the spec: "The parser recognizes lines of the form
`@<key> <value>` inside the leading comment block" (spec §6).  This
variant restricts recognition to the initial run of comment lines, for
comparison with the source's `parseMetadata`. -/
def parseMetadataSpec (code : String) : Option SkillMetadata :=
  finishMetadata (((splitLines code.toList).takeWhile isCommentLine).foldl applyLine {})

/-- Helper for stating C9: whether the regex match of the line carries
the key `timeout`. -/
def isTimeoutLine (line : List Char) : Bool :=
  match findMatch line with
  | some kv => kv.1 = "timeout".toList
  | none => false

/-- Helper for stating C9: the trimmed value carried by the line's regex
match when its key is `skill`. -/
def skillLineValue (line : List Char) : Option String :=
  match findMatch line with
  | some kv => if kv.1 = "skill".toList then some (String.mk (trimChars kv.2)) else none
  | none => none

/-- Helper for stating C9: the value of the last `@skill` line of the
code, if any. -/
def lastSkillValue : List (List Char) → Option String
  | [] => none
  | l :: ls =>
    match lastSkillValue ls with
    | some v => some v
    | none => skillLineValue l

/-! ### Claims -/

/-- C10: `updateRequestStatus` called with a timestamping status and a
chat message id is claimed to store the message id in
`telegram_message_id` and the call time in `approved_at`.  The code
builds the `SET` clause by pushing column names while splicing values at
index 1, which binds them crosswise: evaluating the embedded
`updateRequestStatus` at status `approved`, message id `777` and clock
`1000` puts `777` into `approved_at` and `1000` into
`telegram_message_id`. -/
theorem c10_update_status_swaps_columns :
    updateRequestStatus
      { id := "exec_1", skill_id := "s", skill_url := "u", code_hash := "h",
        secrets := [], args := [], status := "pending", created_at := 5 }
      "approved" (some 777) 1000 =
      { id := "exec_1", skill_id := "s", skill_url := "u", code_hash := "h",
        secrets := [], args := [], status := "approved", created_at := 5,
        approved_at := some 777, telegram_message_id := some 1000 } := by decide

/-- C2: at-most-one approval is claimed — the second approve event on
the same request should be a no-op with at most one sandbox launch.  The
embedded coordinator has no compare-and-set on the lifecycle state:
submitting a request and then processing two approve button events runs
the full approval path twice and records two sandbox launches. -/
theorem c2_second_approve_launches_again :
    (handleApproveClick
      (handleApproveClick
        (executeEndpoint (fun _ => "H")
          { requests := [], codes := [], approvals := [], secretNames := [], launches := [] }
          "hello" "https://s/x.ts" (some "// @skill hello") [] [] "exec_r1" 42 100).1
        "exec_r1" .once [] none 200)
      "exec_r1" .once [] none 300).launches =
      [("exec_r1", "// @skill hello"), ("exec_r1", "// @skill hello")] := by decide

/-- C4 counterexample: the claim states that a `24h` trust record
granted at `t₀` is returned iff `now < t₀ + 86,400 s`.  At the boundary
instant `now = t₀ + 86,400,000 ms` the embedded `getApproval` still
returns the record (its test is `expires_at < now`), so the claimed
biconditional fails at `t₀ = 0`, `now = 86,400,000`. -/
theorem c4_boundary_counterexample :
    ¬ (((getApproval (addApproval [] "https://s/x.ts" "h" .h24 0)
          "https://s/x.ts" "h" 86400000).1.isSome) ↔
        (86400000 < 0 + 86400000)) := by decide

/-- C5 counterexample: the claim states that `addApproval` rejects the
scope `once` and inserts or replaces no row.  The embedded `addApproval`
inserts a `once` row like any other level (with no expiry): starting
from the empty trust store it produces a non-empty store containing the
`once` record. -/
theorem c5_once_persisted_counterexample :
    addApproval [] "https://s/x.ts" "h" .once 5 ≠ ([] : TrustStore) ∧
    lookupApprovalRow (addApproval [] "https://s/x.ts" "h" .once 5) "https://s/x.ts" "h" =
      some { skill_url := "https://s/x.ts", code_hash := "h", approval_level := "once",
             approved_at := 5, expires_at := none } := by constructor <;> decide

/-- C9 counterexample: the claim states that `@<key> <value>` lines are
recognized only inside the leading comment block.  For code whose first
line is plain code (so its leading comment block is empty) and whose
`@skill` line sits in the body, the spec-side parser
(`parseMetadataSpec`) yields the bad-metadata outcome, but the embedded
`parseMetadata` recognizes the body line and succeeds. -/
theorem c9_body_line_recognized_counterexample :
    parseMetadataSpec "const x = 1;\n@skill evil" = none ∧
    parseMetadata "const x = 1;\n@skill evil" = some { skill := some "evil" } := by
  constructor <;> decide

lemma applyLine_skill (m : SkillMetadata) (l : List Char) :
    (applyLine m l).skill =
      match skillLineValue l with
      | some v => some v
      | none => m.skill := by
  unfold applyLine skillLineValue
  cases h : findMatch l with
  | none => simp
  | some kv =>
    simp only []
    split_ifs with h1 h2 h3 h4 h5 <;> simp [h1]

lemma applyLine_timeout (m : SkillMetadata) (l : List Char)
    (hl : isTimeoutLine l = false) :
    (applyLine m l).timeout = m.timeout := by
  unfold isTimeoutLine at hl
  unfold applyLine
  cases h : findMatch l with
  | none => simp
  | some kv =>
    rw [h] at hl
    simp only [] at hl ⊢
    split_ifs with h1 h2 h3 h4 h5 <;> simp_all

lemma foldl_applyLine_skill (lines : List (List Char)) :
    ∀ m : SkillMetadata,
      ((lines.foldl applyLine m).skill) =
        match lastSkillValue lines with
        | some v => some v
        | none => m.skill := by
  induction lines with
  | nil => intro m; rfl
  | cons l ls ih =>
    intro m
    rw [List.foldl_cons, ih (applyLine m l), applyLine_skill]
    cases h : lastSkillValue ls with
    | none => cases hv : skillLineValue l <;> simp [lastSkillValue, h, hv]
    | some v => simp [lastSkillValue, h]

lemma foldl_applyLine_timeout (lines : List (List Char))
    (h : ∀ l ∈ lines, isTimeoutLine l = false) :
    ∀ m : SkillMetadata, (lines.foldl applyLine m).timeout = m.timeout := by
  induction lines with
  | nil => intro m; rfl
  | cons l ls ih =>
    intro m
    rw [List.foldl_cons, ih (fun x hx => h x (List.mem_cons_of_mem _ hx)),
      applyLine_timeout _ _ (h l (List.mem_cons_self _ _))]

/-- C9 (amended): `parseMetadata` recognizes `@<key> <value>` lines
anywhere in the code, not only inside the leading comment block; it
returns the bad-metadata outcome (`null`) exactly when the last
recognized `@skill` line (anywhere) carries a blank trimmed value or
there is no such line; and the returned record's timeout is 30 when no
line matches with key `timeout`. -/
theorem c9_parse_metadata_amended (code : String) :
    (parseMetadata code = none ↔
      (lastSkillValue (splitLines code.toList)).getD "" = "") ∧
    ((∀ l ∈ splitLines code.toList, isTimeoutLine l = false) →
      ∀ m, parseMetadata code = some m → m.timeout = some 30) := by
  constructor
  · unfold parseMetadata finishMetadata
    rw [foldl_applyLine_skill]
    cases h : lastSkillValue (splitLines code.toList) with
    | none => simp
    | some v =>
      simp only [Option.getD_some]
      split_ifs with hv <;> simp [hv]
  · intro hno m hm
    unfold parseMetadata finishMetadata at hm
    have ht := foldl_applyLine_timeout (splitLines code.toList) hno {}
    cases h : ((splitLines code.toList).foldl applyLine {}).skill with
    | none => rw [h] at hm; cases hm
    | some s =>
      rw [h] at hm
      simp only [] at hm
      split_ifs at hm with hs
      cases hm
      simpa using ht

/-- C9 witness: the amended theorem applied to the concrete skill
`// @skill hi`, which has no `@timeout` line, gives timeout 30. -/
theorem c9_amended_witness :
    ({ skill := some "hi" } : SkillMetadata).timeout = some 30 :=
  (c9_parse_metadata_amended "// @skill hi").2 (by decide) _ (by decide)

lemma lookupApprovalRow_upsert_self (st : TrustStore) (r : ApprovalRecord) :
    lookupApprovalRow (upsertApproval st r) r.skill_url r.code_hash = some r := by
  simp [lookupApprovalRow, upsertApproval, List.find?]

lemma lookupApprovalRow_delete (st : TrustStore) (url hash : String) :
    lookupApprovalRow (deleteApproval st url hash) url hash = none := by
  unfold lookupApprovalRow deleteApproval
  rw [List.find?_eq_none]
  intro x hx
  have h2 := (List.mem_filter.mp hx).2
  simp at h2 ⊢
  tauto

lemma getApproval_of_lookup_none (st : TrustStore) (url hash : String) (now : Nat)
    (h : lookupApprovalRow st url hash = none) :
    getApproval st url hash now = (none, st) := by
  unfold getApproval
  rw [h]

/-- C4 (amended): a `24h` trust record granted at `t₀` is returned by
`getApproval` iff `now ≤ t₀ + 86,400,000 ms` — presence is inclusive at
the boundary instant, since the source tests `expires_at < now`; once
expired, the lookup deletes the stored row, so every later lookup (at
any clock value) returns absent. -/
theorem c4_trust_expiry_amended (st : TrustStore) (url hash : String) (t0 now now2 : Nat) :
    (((getApproval (addApproval st url hash .h24 t0) url hash now).1.isSome) ↔
      now ≤ t0 + 86400000) ∧
    (t0 + 86400000 < now →
      (getApproval ((getApproval (addApproval st url hash .h24 t0) url hash now).2)
        url hash now2).1 = none) := by
  have hlk : lookupApprovalRow (addApproval st url hash .h24 t0) url hash =
      some { skill_url := url, code_hash := hash, approval_level := "24h",
             approved_at := t0, expires_at := some (t0 + 86400000) } := by
    have := lookupApprovalRow_upsert_self st
      { skill_url := url, code_hash := hash, approval_level := "24h",
        approved_at := t0, expires_at := some (t0 + 86400000) }
    simpa [addApproval, levelString] using this
  have hne : (t0 + 86400000 : Nat) ≠ 0 := by omega
  constructor
  · unfold getApproval
    rw [hlk]
    simp only [hne, ne_eq, not_false_eq_true, decide_True, Bool.true_and]
    by_cases h : t0 + 86400000 < now <;> simp [h] <;> omega
  · intro hlate
    have h2 : getApproval (addApproval st url hash .h24 t0) url hash now =
        (none, deleteApproval (addApproval st url hash .h24 t0) url hash) := by
      unfold getApproval
      rw [hlk]
      simp [hne, hlate]
    rw [h2]
    rw [getApproval_of_lookup_none _ _ _ _ (lookupApprovalRow_delete _ _ _)]

/-- C4 witness: granting at `t₀ = 0` and looking up after expiry
(`now = 90,000,000 ms`) deletes the row, so a later lookup at clock 5
returns absent. -/
theorem c4_trust_expiry_witness :
    (getApproval ((getApproval (addApproval [] "u" "h" .h24 0) "u" "h" 90000000).2)
      "u" "h" 5).1 = none :=
  (c4_trust_expiry_amended [] "u" "h" 0 90000000 5).2 (by decide)

lemma setRequest_approvals (st : SystemState) (id : String)
    (f : ExecutionRecord → ExecutionRecord) :
    (setRequest st id f).approvals = st.approvals := rfl

lemma launchOrAwait_approvals (st : SystemState) (rid code : String)
    (md : Option SkillMetadata) (now : Nat) :
    (launchOrAwait st rid code md now).approvals = st.approvals := by
  unfold launchOrAwait
  split
  · rfl
  · split
    · split <;> rfl
    · rfl

lemma executeInBackground_approvals (st : SystemState) (rid code : String)
    (md : Option SkillMetadata) (now : Nat) :
    (executeInBackground st rid code md now).approvals = st.approvals := by
  unfold executeInBackground
  rw [launchOrAwait_approvals]
  rfl

lemma persistTrustOnApproval_nopersist (st : SystemState) (request : ExecutionRecord)
    (level : ApprovalLevel) (now : Nat)
    (h1 : level ≠ .h24) (h2 : level ≠ .forever) :
    persistTrustOnApproval st request level now = st := by
  unfold persistTrustOnApproval
  simp [h1, h2]

lemma onApproval_approvals_nopersist (st : SystemState) (rid : String)
    (level : ApprovalLevel) (f : Option String) (now : Nat)
    (h1 : level ≠ .h24) (h2 : level ≠ .forever) :
    (onApproval st rid level f now).approvals = st.approvals := by
  unfold onApproval
  cases hr : getRequest st rid with
  | none => rfl
  | some request =>
    simp only []
    rw [persistTrustOnApproval_nopersist st request level now h1 h2]
    split
    · rfl
    · rw [executeInBackground_approvals]
      rfl

/-- C5 (amended): `addApproval` upserts for every scope — expiry
`now + 24 h` for `24h`, no expiry for `forever` (and also none for
`once`, which it does not reject); the rejection of `once` happens one
layer up: the approval callback `onApproval` persists trust only for
`24h`/`forever`, so a `once` approval leaves the trust store
unchanged. -/
theorem c5_trust_scope_amended (trust : TrustStore) (url hash : String) (now : Nat)
    (st : SystemState) (rid : String) (refetched : Option String) (now2 : Nat) :
    lookupApprovalRow (addApproval trust url hash .h24 now) url hash =
      some { skill_url := url, code_hash := hash, approval_level := "24h",
             approved_at := now, expires_at := some (now + 86400000) } ∧
    lookupApprovalRow (addApproval trust url hash .forever now) url hash =
      some { skill_url := url, code_hash := hash, approval_level := "forever",
             approved_at := now, expires_at := none } ∧
    (onApproval st rid .once refetched now2).approvals = st.approvals := by
  refine ⟨?_, ?_, ?_⟩
  · have := lookupApprovalRow_upsert_self trust
      { skill_url := url, code_hash := hash, approval_level := "24h",
        approved_at := now, expires_at := some (now + 86400000) }
    simpa [addApproval, levelString] using this
  · have := lookupApprovalRow_upsert_self trust
      { skill_url := url, code_hash := hash, approval_level := "forever",
        approved_at := now, expires_at := none }
    simpa [addApproval, levelString] using this
  · exact onApproval_approvals_nopersist st rid .once refetched now2
      (by decide) (by decide)

lemma getApproval_idem (st : TrustStore) (url hash : String) (now : Nat) :
    getApproval (getApproval st url hash now).2 url hash now =
      getApproval st url hash now := by
  unfold getApproval
  cases hl : lookupApprovalRow st url hash with
  | none => simp [hl]
  | some a =>
    by_cases he : (match a.expires_at with
      | some e => (decide (e ≠ 0) && decide (e < now))
      | none => false) = true
    · simp only [he, if_true]
      rw [lookupApprovalRow_delete]
    · simp only [he, if_false]
      simp only [Bool.not_eq_true] at he
      simp [hl, he]
      simpa using he

/-- C8: the approval prompt offers exactly `{approve-once, deny}` when a
currently valid trust record for the `(source locator, fingerprint)`
pair is present, and exactly `{approve-once, deny, trust-code}`
otherwise; clicking `trust-code` persists a `forever` trust record
(no expiry) for that pair. -/
theorem c8_prompt_shaping (trust : TrustStore) (url hash : String) (now : Nat)
    (st : SystemState) (rid : String) (request : ExecutionRecord)
    (meta : List String) (refetched : Option String) (now2 : Nat)
    (hreq : getRequest st rid = some request) :
    ((getApproval trust url hash now).1.isSome →
      (sendApprovalKeyboard trust url hash now).1 = [.approveOnce, .deny]) ∧
    ((getApproval trust url hash now).1 = none →
      (sendApprovalKeyboard trust url hash now).1 = [.approveOnce, .deny, .trustCode]) ∧
    (∃ rec, lookupApprovalRow
        (handleApproveClick st rid .trust_code meta refetched now2).approvals
        request.skill_url request.code_hash = some rec ∧
      rec.approval_level = "forever" ∧ rec.expires_at = none) := by
  have hkb : (sendApprovalKeyboard trust url hash now).1 =
      if (getApproval trust url hash now).1.isSome then
        [PromptButton.approveOnce, PromptButton.deny]
      else [PromptButton.approveOnce, PromptButton.deny, PromptButton.trustCode] := by
    unfold sendApprovalKeyboard
    rw [getApproval_idem]
  refine ⟨?_, ?_, ?_⟩
  · intro h
    rw [hkb, if_pos h]
  · intro h
    rw [hkb, if_neg (by simp [h])]
  · have hg : trustCodeGrant st rid .trust_code now2 =
        { st with approvals :=
            addApproval st.approvals request.skill_url request.code_hash .forever now2 } := by
      unfold trustCodeGrant
      simp [hreq]
    have happ : (handleApproveClick st rid .trust_code meta refetched now2).approvals =
        addApproval st.approvals request.skill_url request.code_hash .forever now2 := by
      unfold handleApproveClick
      rw [hg]
      split_ifs with hm
      · rw [onApproval_approvals_nopersist _ _ _ _ _ (by decide) (by decide)]
      · rfl
    refine ⟨{ skill_url := request.skill_url, code_hash := request.code_hash,
              approval_level := "forever", approved_at := now2, expires_at := none },
            ?_, rfl, rfl⟩
    rw [happ]
    have := lookupApprovalRow_upsert_self st.approvals
      { skill_url := request.skill_url, code_hash := request.code_hash,
        approval_level := "forever", approved_at := now2, expires_at := none }
    simpa [addApproval, levelString] using this

/-- C8 witness: with the empty trust store the prompt offers the full
button set, and a `trust-code` click on a concrete request persists the
`forever` record. -/
theorem c8_prompt_shaping_witness :
    (((getApproval [] "u" "h" 1).1.isSome →
      (sendApprovalKeyboard [] "u" "h" 1).1 = [.approveOnce, .deny]) ∧
    ((getApproval [] "u" "h" 1).1 = none →
      (sendApprovalKeyboard [] "u" "h" 1).1 = [.approveOnce, .deny, .trustCode]) ∧
    (∃ rec, lookupApprovalRow
        (handleApproveClick
          { requests := [{ id := "r1", skill_id := "s", skill_url := "u", code_hash := "h",
                           secrets := [], args := [], status := "pending", created_at := 0 }],
            codes := [], approvals := [], secretNames := [], launches := [] }
          "r1" .trust_code [] none 7).approvals
        ({ id := "r1", skill_id := "s", skill_url := "u", code_hash := "h",
           secrets := [], args := [], status := "pending",
           created_at := 0 } : ExecutionRecord).skill_url
        ({ id := "r1", skill_id := "s", skill_url := "u", code_hash := "h",
           secrets := [], args := [], status := "pending",
           created_at := 0 } : ExecutionRecord).code_hash = some rec ∧
      rec.approval_level = "forever" ∧ rec.expires_at = none)) :=
  c8_prompt_shaping [] "u" "h" 1
    { requests := [{ id := "r1", skill_id := "s", skill_url := "u", code_hash := "h",
                     secrets := [], args := [], status := "pending", created_at := 0 }],
      codes := [], approvals := [], secretNames := [], launches := [] }
    "r1"
    { id := "r1", skill_id := "s", skill_url := "u", code_hash := "h",
      secrets := [], args := [], status := "pending", created_at := 0 }
    [] none 7 (by decide)

lemma envOfList_isSome (l : List (String × String)) :
    ∀ (e : Env) (k : String),
      ((envOfList l e) k).isSome ↔ (k ∈ l.map Prod.fst ∨ (e k).isSome) := by
  induction l with
  | nil => intro e k; simp [envOfList]
  | cons kv rest ih =>
    intro e k
    rw [show envOfList (kv :: rest) e = envOfList rest (envSet e kv.1 kv.2) from rfl, ih]
    by_cases h : k = kv.1 <;> simp [envSet, h]

/-- C3: the sandbox child environment in direct mode is built additively
from the empty object: its domain is exactly the declared secret names
and argument names plus `HOME` and `PATH` (given that the parent defines
both), and it depends on the parent environment only through `HOME` and
`PATH` — two parents agreeing there produce identical child
environments. -/
theorem c3_environment_hygiene
    (secrets args : List (String × String)) (p p1 p2 : Env) (home path : String)
    (hh : p "HOME" = some home) (hh0 : home ≠ "")
    (hp : p "PATH" = some path) (hp0 : path ≠ "") :
    (∀ k, ((buildSkillEnv secrets args p) k).isSome ↔
      (k ∈ secrets.map Prod.fst ∨ k ∈ args.map Prod.fst ∨ k = "HOME" ∨ k = "PATH")) ∧
    (p1 "HOME" = p2 "HOME" → p1 "PATH" = p2 "PATH" →
      buildSkillEnv secrets args p1 = buildSkillEnv secrets args p2) := by
  constructor
  · intro k
    unfold buildSkillEnv copyParentVar
    rw [hh, hp]
    simp only []
    rw [if_neg hp0, if_neg hh0]
    by_cases hkP : k = "PATH"
    · simp [envSet, hkP]
    · by_cases hkH : k = "HOME"
      · simp [envSet, hkP, hkH]
      · simp only [envSet, hkP, hkH, if_false, ite_false]
        rw [envOfList_isSome, envOfList_isSome]
        simp [emptyEnv, hkH, hkP]
        tauto
  · intro h1 h2
    unfold buildSkillEnv copyParentVar
    rw [h1, h2]

/-- C3 witness: with one secret `K`, one argument `A`, and a parent
environment that also holds a credential `TOKEN`, the child domain is
exactly `{K, A, HOME, PATH}`, and a second parent differing only in
`TOKEN` yields the identical child environment. -/
theorem c3_environment_hygiene_witness :
    (∀ k, ((buildSkillEnv [("K", "v")] [("A", "1")]
        (fun n => if n = "HOME" then some "/root" else
          if n = "PATH" then some "/bin" else some "tok")) k).isSome ↔
      (k ∈ ([("K", "v")].map Prod.fst) ∨ k ∈ ([("A", "1")].map Prod.fst) ∨
        k = "HOME" ∨ k = "PATH")) ∧
    ((fun n => if n = "HOME" then some "/root" else
        if n = "PATH" then some "/bin" else some "tok" : Env) "HOME" =
      (fun n => if n = "HOME" then some "/root" else
        if n = "PATH" then some "/bin" else none : Env) "HOME" →
     (fun n => if n = "HOME" then some "/root" else
        if n = "PATH" then some "/bin" else some "tok" : Env) "PATH" =
      (fun n => if n = "HOME" then some "/root" else
        if n = "PATH" then some "/bin" else none : Env) "PATH" →
     buildSkillEnv [("K", "v")] [("A", "1")]
        (fun n => if n = "HOME" then some "/root" else
          if n = "PATH" then some "/bin" else some "tok") =
      buildSkillEnv [("K", "v")] [("A", "1")]
        (fun n => if n = "HOME" then some "/root" else
          if n = "PATH" then some "/bin" else none)) :=
  c3_environment_hygiene [("K", "v")] [("A", "1")]
    (fun n => if n = "HOME" then some "/root" else
      if n = "PATH" then some "/bin" else some "tok")
    (fun n => if n = "HOME" then some "/root" else
      if n = "PATH" then some "/bin" else some "tok")
    (fun n => if n = "HOME" then some "/root" else
      if n = "PATH" then some "/bin" else none)
    "/root" "/bin" (by decide) (by decide) (by decide) (by decide)

lemma executeSkill_eq_skillResult (mode : String) (hashFn : String → String)
    (req : ExecRequestInput) (b : ChildBehavior) (m : String) :
    executeSkill mode hashFn req b m = skillResult hashFn req b m := by
  unfold executeSkill executeSkillDirect executeSkillDocker
  split <;> rfl

/-- C7: in either executor mode, the returned `success` flag is true iff
the child exits with code 0 within the wall-clock timeout (declared
seconds, defaulting to 30 when absent or 0); when the runtime terminates
the child on timeout, the result has `success = false`. -/
theorem c7_success_iff_exit_zero_within_timeout
    (mode : String) (hashFn : String → String)
    (req : ExecRequestInput) (b : ChildBehavior) (errMessage : String) :
    ((executeSkill mode hashFn req b errMessage).success = true ↔
      (b.exitCode = 0 ∧ b.runMs ≤ effectiveTimeout req.timeout * 1000)) ∧
    (effectiveTimeout req.timeout * 1000 < b.runMs →
      (executeSkill mode hashFn req b errMessage).success = false) ∧
    effectiveTimeout none = 30 ∧ effectiveTimeout (some 0) = 30 := by
  rw [executeSkill_eq_skillResult]
  refine ⟨?_, ?_, rfl, rfl⟩
  · unfold skillResult execFileOutcome
    by_cases ht : effectiveTimeout req.timeout * 1000 < b.runMs
    · simp [ht]
    · by_cases he : b.exitCode = 0 <;> simp [ht, he] <;> omega
  · intro h
    unfold skillResult execFileOutcome
    simp [h]

/-- C7 witness: a child that would need 40 s against the default 30 s
timeout is terminated and reported unsuccessful. -/
theorem c7_timeout_witness :
    (executeSkill "direct" (fun s => s)
      { code := "c", secrets := [], args := [] }
      { runMs := 40000, exitCode := 0, stdout := "", stderr := "" } "m").success = false :=
  (c7_success_iff_exit_zero_within_timeout "direct" (fun s => s)
    { code := "c", secrets := [], args := [] }
    { runMs := 40000, exitCode := 0, stdout := "", stderr := "" } "m").2.1 (by decide)

lemma skillResult_fail_stderr (hashFn : String → String) (req : ExecRequestInput)
    (b : ChildBehavior) (m : String) (hm : m ≠ "")
    (hs : (skillResult hashFn req b m).success = false) :
    (skillResult hashFn req b m).stderr ≠ "" := by
  unfold skillResult execFileOutcome at hs ⊢
  by_cases ht : effectiveTimeout req.timeout * 1000 < b.runMs
  · simp only [ht, if_true]
    by_cases hbe : b.stderr = "" <;> simp [hbe, hm]
  · by_cases he : b.exitCode = 0
    · simp [ht, he] at hs
    · simp only [ht, he, if_false, if_true]
      by_cases hbe : b.stderr = "" <;> simp [ht, he, hbe, hm]

lemma applyAssignment_preserve (r : ExecutionRecord) (a : String × SqlValue) :
    (applyAssignment r a).id = r.id ∧ (applyAssignment r a).code_hash = r.code_hash ∧
    (applyAssignment r a).secrets = r.secrets ∧
    (applyAssignment r a).skill_url = r.skill_url := by
  unfold applyAssignment
  split_ifs <;> exact ⟨rfl, rfl, rfl, rfl⟩

lemma foldl_applyAssignment_preserve (l : List (String × SqlValue)) :
    ∀ r : ExecutionRecord,
      (l.foldl applyAssignment r).id = r.id ∧
      (l.foldl applyAssignment r).code_hash = r.code_hash ∧
      (l.foldl applyAssignment r).secrets = r.secrets ∧
      (l.foldl applyAssignment r).skill_url = r.skill_url := by
  induction l with
  | nil => intro r; exact ⟨rfl, rfl, rfl, rfl⟩
  | cons a t ih =>
    intro r
    rw [List.foldl_cons]
    obtain ⟨i1, i2, i3, i4⟩ := ih (applyAssignment r a)
    obtain ⟨j1, j2, j3, j4⟩ := applyAssignment_preserve r a
    exact ⟨i1.trans j1, i2.trans j2, i3.trans j3, i4.trans j4⟩

lemma updateRequestStatus_preserve (r : ExecutionRecord) (status : String)
    (mid : Option Nat) (now : Nat) :
    (updateRequestStatus r status mid now).id = r.id ∧
    (updateRequestStatus r status mid now).code_hash = r.code_hash ∧
    (updateRequestStatus r status mid now).secrets = r.secrets ∧
    (updateRequestStatus r status mid now).skill_url = r.skill_url :=
  foldl_applyAssignment_preserve _ r

lemma find?_map_setter (l : List ExecutionRecord) (id : String)
    (f : ExecutionRecord → ExecutionRecord) (hf : ∀ r, (f r).id = r.id) :
    (l.map (fun r => if r.id = id then f r else r)).find? (fun r => r.id = id) =
      (l.find? (fun r => r.id = id)).map f := by
  induction l with
  | nil => rfl
  | cons a t ih =>
    by_cases h : a.id = id
    · simp [List.find?, h, hf a]
    · simp [List.find?, h, ih]

lemma getRequest_setRequest (st : SystemState) (id : String)
    (f : ExecutionRecord → ExecutionRecord) (hf : ∀ r, (f r).id = r.id) :
    getRequest (setRequest st id f) id = (getRequest st id).map f := by
  unfold getRequest setRequest
  exact find?_map_setter st.requests id f hf

/-- C6: whenever the Sandbox Executor returns a result, storing it moves
the request in one step to `failed` (with the captured streams and the
stderr recorded as the error) when `success = false`, and to `completed`
when `success = true`; in particular a failed result never leaves the
request `completed`.  The hypothesis `errMessage ≠ ""` reflects the Node
runtime contract that a rejection error carries a non-empty message
(`Command failed: …`), which the executor falls back to when the child
wrote nothing to stderr. -/
theorem c6_result_terminal_state (mode : String) (hashFn : String → String)
    (req : ExecRequestInput) (b : ChildBehavior) (errMessage : String)
    (st : SystemState) (rid : String) (row : ExecutionRecord) (r : ExecutionResult)
    (hmsg : errMessage ≠ "")
    (hr : executeSkill mode hashFn req b errMessage = r)
    (hrow : getRequest st rid = some row) :
    ∃ row2, getRequest (finishExecution st rid r) rid = some row2 ∧
      row2.result = some { success := r.success, stdout := r.stdout, stderr := r.stderr,
                           exitCode := r.exitCode, duration := r.duration } ∧
      (r.success = false → row2.status = "failed" ∧ row2.error = some r.stderr) ∧
      (r.success = true → row2.status = "completed" ∧ row2.error = none) := by
  have hget : getRequest (finishExecution st rid r) rid =
      some (updateRequestResult row
        (some { success := r.success, stdout := r.stdout, stderr := r.stderr,
                exitCode := r.exitCode, duration := r.duration })
        (if r.success then none else some r.stderr)) := by
    unfold finishExecution
    rw [getRequest_setRequest st rid
      (fun q => updateRequestResult q
        (some { success := r.success, stdout := r.stdout, stderr := r.stderr,
                exitCode := r.exitCode, duration := r.duration })
        (if r.success then none else some r.stderr)) (fun q => rfl), hrow]
    rfl
  refine ⟨_, hget, rfl, ?_, ?_⟩
  · intro hs
    have hne : r.stderr ≠ "" := by
      rw [← hr] at hs ⊢
      rw [executeSkill_eq_skillResult] at hs ⊢
      exact skillResult_fail_stderr hashFn req b errMessage hmsg hs
    unfold updateRequestResult
    simp [hs, errIsTruthy, hne]
  · intro hs
    unfold updateRequestResult
    simp [hs, errIsTruthy]

/-- C6 witness: a child exiting 1 with empty stderr yields a failure
result whose stderr is the runtime error message, and storing it marks
the concrete request `failed`. -/
theorem c6_result_terminal_state_witness :
    ∃ row2, getRequest
        (finishExecution
          { requests := [{ id := "r1", skill_id := "s", skill_url := "u", code_hash := "h",
                           secrets := [], args := [], status := "executing", created_at := 0 }],
            codes := [], approvals := [], secretNames := [], launches := [] }
          "r1"
          { success := false, stdout := "", stderr := "Command failed", exitCode := 1,
            duration := 5, codeHash := "c" }) "r1" = some row2 ∧
      row2.result = some { success := false, stdout := "", stderr := "Command failed",
                           exitCode := 1, duration := 5 } ∧
      (false = false → row2.status = "failed" ∧ row2.error = some "Command failed") ∧
      (false = true → row2.status = "completed" ∧ row2.error = none) :=
  c6_result_terminal_state "direct" (fun s => s)
    { code := "c", secrets := [], args := [] }
    { runMs := 5, exitCode := 1, stdout := "", stderr := "" } "Command failed"
    { requests := [{ id := "r1", skill_id := "s", skill_url := "u", code_hash := "h",
                     secrets := [], args := [], status := "executing", created_at := 0 }],
      codes := [], approvals := [], secretNames := [], launches := [] }
    "r1"
    { id := "r1", skill_id := "s", skill_url := "u", code_hash := "h",
      secrets := [], args := [], status := "executing", created_at := 0 }
    { success := false, stdout := "", stderr := "Command failed", exitCode := 1,
      duration := 5, codeHash := "c" }
    (by decide) (by decide) (by decide)

lemma parseMetadata_ne_empty {c : String} {m : SkillMetadata}
    (h : parseMetadata c = some m) : c ≠ "" := by
  intro hc
  subst hc
  have he : parseMetadata "" = none := by decide
  rw [he] at h
  cases h

lemma getCode_storeCode_self (st : SystemState) (id code : String) :
    getCode (storeCode st id code) id = some code := by
  simp [getCode, storeCode, List.find?]

lemma codeForExecution_of_stored (st : SystemState) (rid c : String)
    (f : Option String) (h : getCode st rid = some c) (hc : c ≠ "") :
    codeForExecution st rid f = some c := by
  unfold codeForExecution
  rw [h]
  simp [hc]

lemma persistTrust_parts (st : SystemState) (r : ExecutionRecord)
    (lvl : ApprovalLevel) (now : Nat) :
    (persistTrustOnApproval st r lvl now).requests = st.requests ∧
    (persistTrustOnApproval st r lvl now).codes = st.codes ∧
    (persistTrustOnApproval st r lvl now).launches = st.launches ∧
    (persistTrustOnApproval st r lvl now).secretNames = st.secretNames := by
  unfold persistTrustOnApproval
  split_ifs <;> exact ⟨rfl, rfl, rfl, rfl⟩

lemma launchOrAwait_launches (st : SystemState) (rid c : String)
    (md : Option SkillMetadata) (now : Nat) :
    (launchOrAwait st rid c md now).launches = st.launches ∨
    (launchOrAwait st rid c md now).launches = st.launches ++ [(rid, c)] := by
  unfold launchOrAwait
  split
  · exact Or.inl rfl
  · split
    · split
      · exact Or.inr rfl
      · exact Or.inl rfl
    · exact Or.inl rfl

lemma onApproval_uses_stored_code (st1 : SystemState) (freshId code : String)
    (level : ApprovalLevel) (refetched refetched2 : Option String) (now2 : Nat)
    (hcode1 : getCode st1 freshId = some code)
    (hcne : code ≠ "")
    (hreq1 : (getRequest st1 freshId).isSome) :
    (onApproval st1 freshId level refetched now2 =
      onApproval st1 freshId level refetched2 now2) ∧
    ((onApproval st1 freshId level refetched now2).launches = st1.launches ∨
     (onApproval st1 freshId level refetched now2).launches =
       st1.launches ++ [(freshId, code)]) := by
  obtain ⟨row1, hrow1⟩ := Option.isSome_iff_exists.mp hreq1
  have hcode2 : getCode (markApproved (persistTrustOnApproval st1 row1 level now2)
      freshId now2) freshId = some code := by
    show getCode (persistTrustOnApproval st1 row1 level now2) freshId = some code
    unfold getCode
    rw [(persistTrust_parts st1 row1 level now2).2.1]
    exact hcode1
  have hlpres : (markExecuting (markApproved (persistTrustOnApproval st1 row1 level now2)
      freshId now2) freshId now2).launches = st1.launches := by
    show (persistTrustOnApproval st1 row1 level now2).launches = st1.launches
    exact (persistTrust_parts st1 row1 level now2).2.2.1
  constructor
  · unfold onApproval
    rw [hrow1]
    simp only []
    rw [codeForExecution_of_stored _ _ _ refetched hcode2 hcne,
      codeForExecution_of_stored _ _ _ refetched2 hcode2 hcne]
  · unfold onApproval
    rw [hrow1]
    simp only []
    rw [codeForExecution_of_stored _ _ _ refetched hcode2 hcne]
    rcases launchOrAwait_launches
        (markExecuting (markApproved (persistTrustOnApproval st1 row1 level now2)
          freshId now2) freshId now2) freshId code (parseMetadata code) now2 with h | h
    · exact Or.inl (h.trans hlpres)
    · refine Or.inr (h.trans ?_)
      rw [hlpres]

/-- C1: for a request created by `POST /execute` (which always stores the
fetched bytes), the approval path never depends on the re-fetch oracle —
the re-fetch fallback is dead — and any sandbox launch it performs hands
over exactly the bytes stored at ingress, whose `hashFn` fingerprint is
the `code_hash` persisted on the row (the one displayed to the
operator). -/
theorem c1_hash_to_execute_binding
    (hashFn : String → String) (st st1 : SystemState)
    (skillId skillUrl code freshId rid : String)
    (secretsList : List String) (args : List (String × String)) (messageId now : Nat)
    (level : ApprovalLevel) (refetched refetched2 : Option String) (now2 : Nat)
    (hfresh : getRequest st freshId = none)
    (hrun : executeEndpoint hashFn st skillId skillUrl (some code) secretsList args
      freshId messageId now = (st1, some rid)) :
    (onApproval st1 freshId level refetched now2 =
      onApproval st1 freshId level refetched2 now2) ∧
    ((onApproval st1 freshId level refetched now2).launches = st1.launches ∨
     (onApproval st1 freshId level refetched now2).launches =
       st1.launches ++ [(freshId, code)]) ∧
    (∀ r, getRequest st1 freshId = some r → r.code_hash = hashFn code) := by
  unfold executeEndpoint at hrun
  split_ifs at hrun with hv
  · simp at hrun
  simp only [] at hrun
  cases hmd : parseMetadata code with
  | none =>
    rw [hmd] at hrun
    simp at hrun
  | some md =>
    rw [hmd] at hrun
    simp only [Prod.mk.injEq] at hrun
    obtain ⟨hst1, hrid⟩ := hrun
    have hcne : code ≠ "" := parseMetadata_ne_empty hmd
    have hcode1 : getCode st1 freshId = some code := by
      rw [← hst1]
      exact getCode_storeCode_self
        (createRequest st freshId skillId skillUrl (hashFn code) secretsList args now)
        freshId code
    have hreq1 : getRequest st1 freshId =
        some (updateRequestStatus
          { id := freshId, skill_id := skillId, skill_url := skillUrl,
            code_hash := hashFn code, secrets := secretsList, args := args,
            status := "pending", created_at := now }
          "pending" (some messageId) now) := by
      rw [← hst1]
      rw [getRequest_setRequest _ freshId _
        (fun r => (updateRequestStatus_preserve r "pending" (some messageId) now).1)]
      have hf2 : st.requests.find? (fun r => r.id = freshId) = none := hfresh
      have hbase : getRequest
          { persistIngress hashFn st skillId skillUrl code freshId secretsList args now with
            approvals :=
              (sendApprovalKeyboard
                (persistIngress hashFn st skillId skillUrl code freshId secretsList args now).approvals
                skillUrl (hashFn code) now).2 }
          freshId =
          some { id := freshId, skill_id := skillId, skill_url := skillUrl,
                 code_hash := hashFn code, secrets := secretsList, args := args,
                 status := "pending", created_at := now } := by
        show (st.requests ++
          [({ id := freshId, skill_id := skillId, skill_url := skillUrl,
              code_hash := hashFn code, secrets := secretsList, args := args,
              status := "pending", created_at := now } : ExecutionRecord)]).find?
            (fun r => r.id = freshId) =
          some { id := freshId, skill_id := skillId, skill_url := skillUrl,
                 code_hash := hashFn code, secrets := secretsList, args := args,
                 status := "pending", created_at := now }
        rw [List.find?_append, hf2]
        simp [List.find?]
      rw [hbase]
      rfl
    obtain ⟨ha, hb⟩ := onApproval_uses_stored_code st1 freshId code level
      refetched refetched2 now2 hcode1 hcne (by rw [hreq1]; rfl)
    refine ⟨ha, hb, ?_⟩
    intro r hr
    rw [hreq1] at hr
    injection hr with hr2
    rw [← hr2]
    exact (updateRequestStatus_preserve _ "pending" (some messageId) now).2.1

/-- C1 witness: a concrete ingress followed by approval, where the
re-fetch oracle returning poisoned bytes is irrelevant. -/
theorem c1_hash_to_execute_binding_witness :
    (onApproval (executeEndpoint (fun _ => "H")
        { requests := [], codes := [], approvals := [], secretNames := [], launches := [] }
        "hello" "u" (some "// @skill hello") [] [] "exec_1" 42 100).1
      "exec_1" .once none 200 =
     onApproval (executeEndpoint (fun _ => "H")
        { requests := [], codes := [], approvals := [], secretNames := [], launches := [] }
        "hello" "u" (some "// @skill hello") [] [] "exec_1" 42 100).1
      "exec_1" .once (some "EVIL") 200) ∧
    ((onApproval (executeEndpoint (fun _ => "H")
        { requests := [], codes := [], approvals := [], secretNames := [], launches := [] }
        "hello" "u" (some "// @skill hello") [] [] "exec_1" 42 100).1
      "exec_1" .once none 200).launches =
        (executeEndpoint (fun _ => "H")
          { requests := [], codes := [], approvals := [], secretNames := [], launches := [] }
          "hello" "u" (some "// @skill hello") [] [] "exec_1" 42 100).1.launches ∨
     (onApproval (executeEndpoint (fun _ => "H")
        { requests := [], codes := [], approvals := [], secretNames := [], launches := [] }
        "hello" "u" (some "// @skill hello") [] [] "exec_1" 42 100).1
      "exec_1" .once none 200).launches =
        (executeEndpoint (fun _ => "H")
          { requests := [], codes := [], approvals := [], secretNames := [], launches := [] }
          "hello" "u" (some "// @skill hello") [] [] "exec_1" 42 100).1.launches ++
          [("exec_1", "// @skill hello")]) ∧
    (∀ r, getRequest (executeEndpoint (fun _ => "H")
        { requests := [], codes := [], approvals := [], secretNames := [], launches := [] }
        "hello" "u" (some "// @skill hello") [] [] "exec_1" 42 100).1 "exec_1" = some r →
      r.code_hash = (fun _ => "H") "// @skill hello") :=
  c1_hash_to_execute_binding (fun _ => "H")
    { requests := [], codes := [], approvals := [], secretNames := [], launches := [] }
    (executeEndpoint (fun _ => "H")
      { requests := [], codes := [], approvals := [], secretNames := [], launches := [] }
      "hello" "u" (some "// @skill hello") [] [] "exec_1" 42 100).1
    "hello" "u" "// @skill hello" "exec_1" "exec_1" [] [] 42 100 .once none (some "EVIL") 200
    (by decide) (by decide)

end OAuth3
